import Mathlib

/-!
Shallow embedding of the `poisjuoksu` pseudo-3D road renderer (src/lib.rs)
together with proofs about its specification claims.

Modelling conventions:
* Rust `i32` values are modelled as `Int`.  The spec (section 7) makes
  absence of fixed-point overflow an unenforced caller precondition, so
  arithmetic is modelled exactly (no wrap-around).
* Rust `/` on `i32` truncates towards zero and panics on a zero divisor.
  We use `Int.tdiv` (truncating division) at every division site.  Every
  division site whose divisor can actually be zero at run time is modelled
  explicitly: `render_road_line` returns `Except.error` (a panic) when
  `tx_step = 0`, carrying the frame state at the moment of the panic.  All
  other division sites are guarded in the source (`div == 0` checks,
  `y_curve != 0` branches) or have provably positive divisors
  (`isqrt (65536 + s*s) ≥ 1`); for those `Int.tdiv` agrees with Rust.
* Rust `>> k` on `i32` is an arithmetic shift, i.e. flooring division by
  `2^k`: modelled by `sar`.  Rust `<< k` is multiplication by `2^k` in the
  absence of overflow: modelled by `shl`.
* The painter capability (trait `Painter`) is modelled symbolically: a
  draw call is recorded as a `Draw` event whose colour is the symbolic
  result of the corresponding pure colour function (`sky_color y`,
  `road_color tx t`, `ground_color tx t`); `road_width` is a parameter.
* The per-row `horizon` array of `LineVisibility` is modelled as a total
  function `Int → LineVisibility`; all indices used by the source are
  proved to lie in `[0, H)`, so no out-of-bounds panic is reachable and
  the total-function model is faithful.
* `while`/`for` loops are modelled by structural recursion on an explicit
  iteration count that mirrors the loop bound of the source (row loops
  run at most `y+1` times since `y` strictly decreases and the guard is
  `y ≥ 0`; the segment loops run at most `segments.length` times).
-/

namespace Poisjuoksu

set_option maxRecDepth 100000

/-- Fixed point position (`FP_POS` in the source, used as a shift count). -/
def FP_POS : Nat := 8

/-- Rust arithmetic shift right on `i32`: flooring division by `2^k`. -/
def sar (a : Int) (k : Nat) : Int := Int.fdiv a (2 ^ k)

/-- Rust shift left on `i32` (no-overflow precondition): times `2^k`. -/
def shl (a : Int) (k : Nat) : Int := a * 2 ^ k

/-- Rust `i32` division: truncation towards zero. -/
def tdiv (a b : Int) : Int := Int.tdiv a b

/-- One iteration-indexed unfolding of the digit-by-digit square-root loop
of `isqrt`.  At fuel `m+1` the source has `b = 2^m` and `bshft = m`, so
`tmp = ((n << 1) + b) << bshft = (2*n + b) * b`. -/
def isqrtAux : Nat → Int → Int → Int
  | 0, _, n => n
  | m + 1, v, n =>
    let b : Int := 2 ^ m
    let tmp := (2 * n + b) * b
    if tmp ≤ v then isqrtAux m (v - tmp) (n + b) else isqrtAux m v n

/-- Function `isqrt` from the source: 16 iterations starting at bit 15. -/
def isqrt (num : Int) : Int := isqrtAux 16 num 0

/-- Type `SideInclination` from the source. -/
inductive SideInclination
  | Uphill
  | Flat
  | Downhill
deriving DecidableEq, Repr

/-- Type `Segment` from the source. -/
structure Segment where
  side_style : SideInclination × SideInclination
  length : Int
  x_curve : Int
  y_curve : Int
deriving DecidableEq, Repr

/-- The `RoadRenderer` state (the borrowed segment slice is a list). -/
structure RoadRenderer where
  segments : List Segment
  cur_segment : Nat
  near : Int
  cur_t : Int
  base_t : Int
deriving DecidableEq, Repr

/-- The `while` loop of `RoadRenderer::advance`: while the current segment
exists and `cur_t ≥ base_t + length`, advance `base_t` and `cur_segment`.
The loop performs at most `segments.length - cur_segment` iterations, so
any fuel of at least `segments.length` is sufficient. -/
def advanceLoop (segs : List Segment) : Nat → Nat → Int → Int → Nat × Int
  | 0, cs, bT, _ => (cs, bT)
  | fuel + 1, cs, bT, t =>
    match segs[cs]? with
    | none => (cs, bT)
    | some seg =>
      if bT + seg.length ≤ t then advanceLoop segs fuel (cs + 1) (bT + seg.length) t
      else (cs, bT)

/-- Method `RoadRenderer::advance`. -/
def RoadRenderer.advance (r : RoadRenderer) (step : Int) : RoadRenderer :=
  let t := r.cur_t + step
  let cb := advanceLoop r.segments r.segments.length r.cur_segment r.base_t t
  { r with cur_t := t, cur_segment := cb.1, base_t := cb.2 }

/-- Method `RoadRenderer::set`. -/
def RoadRenderer.set (r : RoadRenderer) (t : Int) : RoadRenderer :=
  RoadRenderer.advance { r with cur_t := 0, base_t := 0, cur_segment := 0 } t

/-- Method `RoadRenderer::new`. -/
def RoadRenderer.new (segments : List Segment) (near : Int) : RoadRenderer :=
  { segments := segments, cur_segment := 0, near := near, cur_t := 0, base_t := 0 }

/-- The transient projection accumulator threaded through a render call. -/
structure ProjState where
  x_offset : Int
  y_offset : Int
  z_offset : Int
  x_slope : Int
  y_slope : Int
deriving DecidableEq, Repr

/-- Method `RoadRenderer::update_state_at_segment_length`.  The source receives a
segment index and reads `segments[index].{x_curve, y_curve}`; we pass the
segment itself.  Divisors: `t_factor = isqrt(2^16 + y_slope^2) ≥ 1` and
`tsqrtcurve = isqrt(|y_curve| << 8) ≥ 1` when `y_curve ≠ 0`, so the Rust
divisions cannot panic here and `tdiv` is faithful. -/
def update_state_at_segment_length (seg : Segment) (length : Int) (s : ProjState) : ProjState :=
  let y_curve := seg.y_curve
  let x_curve := seg.x_curve
  let zy : Int × Int × Int :=
    if y_curve = 0 then
      let t_factor := isqrt (shl 1 (2 * FP_POS) + s.y_slope * s.y_slope)
      let z := tdiv (shl length FP_POS) t_factor
      (z, s.y_offset + sar (s.y_slope * z) FP_POS, s.y_slope)
    else
      let abs_y_curve := if y_curve < 0 then -y_curve else y_curve
      let tsqrtcurve := isqrt (shl abs_y_curve FP_POS)
      let z2 := tdiv (4 * length) tsqrtcurve
      let z := shl (isqrt (shl z2 FP_POS)) (FP_POS / 2)
      (z, s.y_offset + y_curve * z2 + sar (s.y_slope * z) FP_POS,
        s.y_slope + sar (y_curve * z * 2) FP_POS)
  let z := zy.1
  let xo : Int × Int :=
    if x_curve = 0 then
      (s.x_offset + sar (s.x_slope * z) FP_POS, s.x_slope)
    else
      (s.x_offset + sar (sar (x_curve * z) FP_POS * z) FP_POS + sar (s.x_slope * z) FP_POS,
        s.x_slope + sar (2 * x_curve * z) FP_POS)
  { x_offset := xo.1, y_offset := zy.2.1, z_offset := s.z_offset + z,
    x_slope := xo.2, y_slope := zy.2.2 }

/-- The segment-replay loop of `RoadRenderer::get_screen_pos` (the `for`
loop over `cur_segment..segments.len()` with the `t_left == 0` break).
Fuel `segments.length` is sufficient. -/
def gspLoop (r : RoadRenderer) : Nat → Nat → Int → ProjState → ProjState
  | 0, _, _, s => s
  | fuel + 1, i, t_left, s =>
    match r.segments[i]? with
    | none => s
    | some seg =>
      let length_left := seg.length - (if i = r.cur_segment then r.cur_t - r.base_t else 0)
      let length := if t_left < length_left then t_left else length_left
      let s1 := update_state_at_segment_length seg length s
      let t1 := t_left - length
      if t1 = 0 then s1 else gspLoop r fuel (i + 1) t1 s1

/-- Method `RoadRenderer::get_screen_pos`, returning `(x_px, y_px, inv_z)`.
A zero accumulated depth is replaced by one before the divisions. -/
def get_screen_pos (r : RoadRenderer) (w h : Int)
    (camera_x_offset camera_y_offset point_t_offset point_x_offset point_y_offset : Int) :
    Int × Int × Int :=
  let s := gspLoop r r.segments.length r.cur_segment point_t_offset
    { x_offset := camera_x_offset, y_offset := camera_y_offset,
      z_offset := 0, x_slope := 0, y_slope := 0 }
  let z_offset := if s.z_offset = 0 then 1 else s.z_offset
  (tdiv w 2 + tdiv (r.near * (point_x_offset - s.x_offset)) z_offset,
   tdiv h 2 + tdiv (r.near * (s.y_offset - point_y_offset)) z_offset,
   tdiv (shl 1 (3 * FP_POS)) z_offset)

/-- Symbolic colour values: the results of the painter's pure colour
functions (`sky_color`, `road_color`, `ground_color`). -/
inductive Color
  | sky (y : Int)
  | road (tx t : Int)
  | ground (tx t : Int)
deriving DecidableEq, Repr

/-- One `painter.draw(x, y, color)` call. -/
structure Draw where
  x : Int
  y : Int
  c : Color
deriving DecidableEq, Repr

/-- Type `LineVisibility` from the source (i16 fields modelled as `Int`; all
values stay in `[0, W]` for `W ≤ 32767`, inside the i16 range). -/
structure LineVisibility where
  road : Bool
  begin : Int
  «end» : Int
deriving DecidableEq, Repr

/-- Frame-local mutable state of one render call: the draw calls issued so
far (in order) and the per-row visibility array. -/
structure Frame where
  draws : List Draw
  horizon : Int → LineVisibility

/-- Pointwise update of the horizon array. -/
def setRow (hz : Int → LineVisibility) (i : Int) (l : LineVisibility) : Int → LineVisibility :=
  fun j => if j = i then l else hz j

/-- Record one draw call. -/
def pushDraw (fr : Frame) (d : Draw) : Frame :=
  { fr with draws := fr.draws ++ [d] }

/-- Draw events of `for x in a..b { painter.draw(x, y, color) }`. -/
def rangeDraws (a b y : Int) (c : Color) : List Draw :=
  (List.range (b - a).toNat).map (fun (k : Nat) => { x := a + (k : Int), y := y, c := c })

/-- Append a constant-colour row fill to the frame. -/
def appendRange (fr : Frame) (a b y : Int) (c : Color) : Frame :=
  { fr with draws := fr.draws ++ rangeDraws a b y c }

/-- Inner wedge walk of the left `Uphill` shoulder of
`render_road_line`: `for y0 in (0..y_start).rev()` with running column
`x0`; at fuel `n+1` the current row is `y0 = n`.  Each step raises
`horizon[y0].begin` to `x0+1`, draws the ground colour when
`horizon[y0].end > x0`, then moves one column left, stopping below
column 0. -/
def patchLeftWalk (c : Color) : Nat → Int → Frame → Frame
  | 0, _, fr => fr
  | n + 1, x0, fr =>
    let y0 : Int := (n : Int)
    let l := fr.horizon y0
    let fr1 : Frame := { fr with horizon := setRow fr.horizon y0 ({ l with begin := max l.begin (x0 + 1) }) }
    let fr2 := if x0 < l.«end» then pushDraw fr1 { x := x0, y := y0, c := c } else fr1
    if x0 - 1 < 0 then fr2 else patchLeftWalk c n (x0 - 1) fr2

/-- Outer loop of the left `Uphill` shoulder: `for x in line.begin..road_left`,
clamping the start column to `w-1` (shortening the walk accordingly). -/
def patchLeftOuter (w y : Int) (c : Color) : Nat → Int → Frame → Frame
  | 0, _, fr => fr
  | n + 1, x, fr =>
    let x0 := if w ≤ x then w - 1 else x
    let y_start := if w ≤ x then y + 1 - (x - w + 1) else y + 1
    patchLeftOuter w y c n (x + 1) (patchLeftWalk c y_start.toNat x0 fr)

/-- Inner wedge walk of the right `Uphill` shoulder: lowers
`horizon[y0].end` to `x0`, draws when `horizon[y0].begin ≤ x0`, then moves
one column right, stopping at column `w`. -/
def patchRightWalk (w : Int) (c : Color) : Nat → Int → Frame → Frame
  | 0, _, fr => fr
  | n + 1, x0, fr =>
    let y0 : Int := (n : Int)
    let l := fr.horizon y0
    let fr1 : Frame := { fr with horizon := setRow fr.horizon y0 ({ l with «end» := min l.«end» x0 }) }
    let fr2 := if l.begin ≤ x0 then pushDraw fr1 { x := x0, y := y0, c := c } else fr1
    if w ≤ x0 + 1 then fr2 else patchRightWalk w c n (x0 + 1) fr2

/-- Outer loop of the right `Uphill` shoulder: `for x in road_right..line.end`,
clamping the start column to 0 (shortening the walk accordingly). -/
def patchRightOuter (w y : Int) (c : Color) : Nat → Int → Frame → Frame
  | 0, _, fr => fr
  | n + 1, x, fr =>
    let x0 := if x < 0 then 0 else x
    let y_start := if x < 0 then y + 1 + x else y + 1
    patchRightOuter w y c n (x + 1) (patchRightWalk w c y_start.toNat x0 fr)

/-- The road-centre loop of `render_road_line`:
`for x in road_begin..road_end` drawing `road_color(tx, t_global)` with
`tx` advancing by `tx_step` per pixel. -/
def centerLoop (t_global tx_step y : Int) : Nat → Int → Int → Frame → Frame
  | 0, _, _, fr => fr
  | n + 1, x, tx, fr =>
    centerLoop t_global tx_step y n (x + 1) (tx + tx_step)
      (pushDraw fr { x := x, y := y, c := Color.road tx t_global })

/-- The left-shoulder `match style.0` of `render_road_line`: returns the
frame after the shoulder's draws and the new `line.begin`. -/
def leftSide (w y road_left road_begin : Int) (c : Color) (line0 : LineVisibility)
    (sl : SideInclination) (fr : Frame) : Frame × Int :=
  match sl with
  | SideInclination.Uphill =>
    (patchLeftOuter w y c (road_left - line0.begin).toNat line0.begin fr, 0)
  | SideInclination.Flat =>
    (appendRange fr line0.begin road_begin y c, 0)
  | SideInclination.Downhill =>
    (fr, if 0 < line0.begin then 0 else road_begin)

/-- The right-shoulder `match style.1` of `render_road_line`: returns the
frame after the shoulder's draws and the new `line.end`. -/
def rightSide (w y road_right road_end : Int) (c : Color) (line0 : LineVisibility)
    (sr : SideInclination) (fr : Frame) : Frame × Int :=
  match sr with
  | SideInclination.Uphill =>
    (patchRightOuter w y c (line0.«end» - road_right).toNat road_right fr, w)
  | SideInclination.Flat =>
    (appendRange fr road_end line0.«end» y c, w)
  | SideInclination.Downhill =>
    (fr, if line0.«end» < w then w else road_end)

/-- Method `RoadRenderer::render_road_line`.  `style.1`/`style.2` are the Rust
tuple fields `style.0` (left) and `style.1` (right).  When `tx_step = 0`
the source divides by zero computing `road_left`, a Rust panic: modelled
as `Except.error` carrying the frame state at that moment (no draw call
of this line has been issued yet). -/
def render_road_line (w h road_width : Int) (style : SideInclination × SideInclination)
    (base_tx x_offset x_slope x_curve y z z_local t_global : Int)
    (fr : Frame) : Except Frame Frame :=
  let tx_step := base_tx * z
  let z_tmp := sar z_local (FP_POS / 2)
  let tx0 := tdiv (tx_step * (-w)) 2 + shl x_offset FP_POS + x_curve * z_tmp * z_tmp +
    x_slope * z_local
  if tx_step = 0 then Except.error fr else
  let road_left := 1 - tdiv (1 + road_width + tx0) tx_step
  let road_right := 1 + tdiv (road_width - tx0) tx_step
  let line0 := fr.horizon y
  let road_begin := min (max road_left line0.begin) line0.«end»
  let road_end := min (max road_right line0.begin) line0.«end»
  let side_color := Color.ground 0 t_global
  let left := leftSide w y road_left road_begin side_color line0 style.1 fr
  let fr2 := centerLoop t_global tx_step y (road_end - road_begin).toNat road_begin
    (tx0 + tx_step * road_begin) left.1
  let right := rightSide w y road_right road_end side_color line0 style.2 fr2
  let lineOut : LineVisibility := { road := true, begin := left.2, «end» := right.2 }
  Except.ok { right.1 with horizon := setRow right.1.horizon y lineOut }

/-- Arguments threaded through `RoadRenderer::render_road` (one segment's
rasterization). -/
structure RoadArgs where
  w : Int
  h : Int
  road_width : Int
  near : Int
  style : SideInclination × SideInclination
  x_offset : Int
  y_offset : Int
  z_offset : Int
  x_slope : Int
  y_slope : Int
  x_curve : Int
  y_curve : Int
  length : Int
  t_start : Int
deriving Repr

/-- The `while *y >= 0` scan loop of `render_road` for `y_curve == 0`.
The cursor strictly decreases each iteration, so fuel `(y+1).toNat` is
exact; the loop returns the final cursor value. -/
def roadFlatLoop (a : RoadArgs) (base_tx t_factor : Int) :
    Nat → Int → Frame → Except Frame (Int × Frame)
  | 0, y, fr => Except.ok (y, fr)
  | n + 1, y, fr =>
    if y < 0 then Except.ok (y, fr) else
    let vy := y - tdiv a.h 2
    let dv := sar (a.near * a.y_slope) FP_POS - vy
    if dv = 0 then Except.ok (y, fr) else
    let z := a.z_offset + tdiv (a.z_offset * vy - a.y_offset * a.near) dv
    if z < 0 then Except.ok (y, fr) else
    let t_local := sar ((z - a.z_offset) * t_factor) FP_POS
    if t_local < 0 ∨ a.length ≤ t_local then Except.ok (y, fr) else
    match render_road_line a.w a.h a.road_width a.style base_tx a.x_offset a.x_slope a.x_curve
      y z (z - a.z_offset) (a.t_start + t_local) fr with
    | Except.error fr1 => Except.error fr1
    | Except.ok fr1 => roadFlatLoop a base_tx t_factor n (y - 1) fr1

/-- The `while *y >= 0` scan loop of `render_road` for `y_curve != 0`. -/
def roadCurvedLoop (a : RoadArgs) (base_tx inv_near tsqrtcurve : Int) :
    Nat → Int → Frame → Except Frame (Int × Frame)
  | 0, y, fr => Except.ok (y, fr)
  | n + 1, y, fr =>
    if y < 0 then Except.ok (y, fr) else
    let vy := (y - tdiv a.h 2) * inv_near
    let vym := vy - a.y_slope
    let disc := vym * vym + 4 * (sar (a.z_offset * vy) FP_POS - a.y_offset) * a.y_curve
    if disc < 0 then Except.ok (y, fr) else
    let sqrt_disc := shl (isqrt (shl disc (FP_POS / 2))) (FP_POS - FP_POS / 4)
    let z := tdiv (shl vym FP_POS - sqrt_disc) (2 * a.y_curve)
    if z < 0 then Except.ok (y, fr) else
    let z_tmp := sar z (FP_POS / 2)
    let t_local := tsqrtcurve * sar (tdiv (z_tmp * z_tmp) 4) FP_POS
    if t_local < 0 ∨ a.length ≤ t_local then Except.ok (y, fr) else
    match render_road_line a.w a.h a.road_width a.style base_tx a.x_offset a.x_slope a.x_curve
      y (z + a.z_offset) z (a.t_start + t_local) fr with
    | Except.error fr1 => Except.error fr1
    | Except.ok fr1 => roadCurvedLoop a base_tx inv_near tsqrtcurve n (y - 1) fr1

/-- Method `RoadRenderer::render_road`: dispatch on `y_curve`. -/
def render_road (a : RoadArgs) (y : Int) (fr : Frame) : Except Frame (Int × Frame) :=
  let base_tx := tdiv (shl 1 FP_POS) a.near
  if a.y_curve = 0 then
    let t_factor := isqrt (shl 1 (2 * FP_POS) + a.y_slope * a.y_slope)
    roadFlatLoop a base_tx t_factor (y + 1).toNat y fr
  else
    let inv_near := tdiv (shl 1 FP_POS) a.near
    let abs_y_curve := if a.y_curve < 0 then -a.y_curve else a.y_curve
    let tsqrtcurve := isqrt (shl abs_y_curve FP_POS)
    roadCurvedLoop a base_tx inv_near tsqrtcurve (y + 1).toNat y fr

/-- The rasterizer arguments the segment loop of `render` assembles for
one segment from the running projection accumulator. -/
def segArgs (r : RoadRenderer) (w h road_width : Int) (seg : Segment) (s : ProjState)
    (t_start local_t : Int) : RoadArgs :=
  { w := w, h := h, road_width := road_width, near := r.near,
    style := seg.side_style,
    x_offset := s.x_offset, y_offset := s.y_offset, z_offset := s.z_offset,
    x_slope := s.x_slope, y_slope := s.y_slope,
    x_curve := seg.x_curve, y_curve := seg.y_curve,
    length := seg.length - local_t, t_start := t_start }

/-- The per-segment `for` loop of `RoadRenderer::render`, carrying the
projection accumulator, running track distance `t_start`, shared row
cursor and frame.  Fuel `segments.length` is sufficient. -/
def renderSegLoop (r : RoadRenderer) (w h road_width : Int) :
    Nat → Nat → ProjState → Int → Int → Frame → Except Frame (Int × ProjState × Int × Frame)
  | 0, _, s, t_start, y, fr => Except.ok (y, s, t_start, fr)
  | fuel + 1, i, s, t_start, y, fr =>
    match r.segments[i]? with
    | none => Except.ok (y, s, t_start, fr)
    | some seg =>
      let local_t := if i = r.cur_segment then r.cur_t - r.base_t else 0
      match render_road (segArgs r w h road_width seg s t_start local_t) y fr with
      | Except.error fr1 => Except.error fr1
      | Except.ok (y1, fr1) =>
        let s1 := update_state_at_segment_length seg (seg.length - local_t) s
        renderSegLoop r w h road_width fuel (i + 1) s1 (t_start + (seg.length - local_t)) y1 fr1

/-- Sky draw events of one row (`render_sky` body for row `y`). -/
def skyLine (w y : Int) (l : LineVisibility) : List Draw :=
  if l.road then
    rangeDraws 0 l.begin y (Color.sky y) ++ rangeDraws l.«end» w y (Color.sky y)
  else
    rangeDraws l.begin l.«end» y (Color.sky y)

/-- The `for y in 0..h` loop of `render_sky`, rows `y0, y0+1, …`. -/
def skyLoop (w : Int) (hz : Int → LineVisibility) : Nat → Int → List Draw
  | 0, _ => []
  | n + 1, y0 => skyLine w y0 (hz y0) ++ skyLoop w hz n (y0 + 1)

/-- Method `RoadRenderer::render_sky`. -/
def render_sky (w h : Int) (fr : Frame) : Frame :=
  { fr with draws := fr.draws ++ skyLoop w fr.horizon h.toNat 0 }

/-- The fresh visibility buffer of `render`: every row open, `[0, w)`. -/
def initFrame (w : Int) : Frame :=
  { draws := [], horizon := fun _ => { road := false, begin := 0, «end» := w } }

/-- Method `RoadRenderer::render` for screen size `(w, h)` and painter road
width `road_width`.  Returns `Except.error` with the partial frame when
the rasterizer panics (division by zero). -/
def RoadRenderer.render (r : RoadRenderer) (w h road_width : Int)
    (initial_x_offset initial_y_offset : Int) : Except Frame Frame :=
  let s0 : ProjState := {
    x_offset := initial_x_offset, y_offset := initial_y_offset,
    z_offset := 0, x_slope := 0, y_slope := 0 }
  match renderSegLoop r w h road_width r.segments.length r.cur_segment s0 r.cur_t (h - 1)
    (initFrame w) with
  | Except.error fr => Except.error fr
  | Except.ok (_, _, _, fr) => Except.ok (render_sky w h fr)

/-- All draw calls of a (possibly panicking) render: the trace up to the
panic in the error case. -/
def traceOf : Except Frame Frame → List Draw
  | Except.error fr => fr.draws
  | Except.ok fr => fr.draws

/-- The frame carried by either outcome. -/
def frameOf : Except Frame Frame → Frame
  | Except.error fr => fr
  | Except.ok fr => fr

/-- The frame carried by either outcome of a scan loop. -/
def frameOfR : Except Frame (Int × Frame) → Frame
  | Except.error fr => fr
  | Except.ok p => p.2

/-- The frame carried by either outcome of the per-segment loop. -/
def frameOfS : Except Frame (Int × ProjState × Int × Frame) → Frame
  | Except.error fr => fr
  | Except.ok p => p.2.2.2

/-- Whether a render completed without panicking. -/
def isOkB : Except Frame Frame → Bool
  | Except.error _ => false
  | Except.ok _ => true

/-- Total track length: the sum of all segment lengths. -/
def segTotal (segs : List Segment) : Int :=
  (segs.map (fun s => s.length)).sum

/-- Sum of the lengths of the first `k` segments. -/
def prefixLen (segs : List Segment) (k : Nat) : Int :=
  ((segs.take k).map (fun s => s.length)).sum

/-- States reachable from `new segs near` by `advance` with non-negative
steps and `set` with non-negative distances. -/
inductive Reach (segs : List Segment) (near : Int) : RoadRenderer → Prop
  | base : Reach segs near (RoadRenderer.new segs near)
  | adv (r : RoadRenderer) (step : Int) : 0 ≤ step → Reach segs near r →
      Reach segs near (r.advance step)
  | seek (r : RoadRenderer) (t : Int) : 0 ≤ t → Reach segs near r →
      Reach segs near (r.set t)

/-- Apply a sequence of `advance` calls. -/
def applyAdvances : List Int → RoadRenderer → RoadRenderer
  | [], r => r
  | s :: rest, r => applyAdvances rest (r.advance s)

/-- Position-state invariant of the sequencer (spec section 3): the base
distance is the prefix sum of the passed segments, it never exceeds the
travelled distance, and the current segment index stops exactly at the
first segment whose far end is beyond the travelled distance. -/
def PosInv (r : RoadRenderer) : Prop :=
  0 ≤ r.base_t ∧ r.base_t ≤ r.cur_t ∧ r.cur_segment ≤ r.segments.length ∧
  r.base_t = prefixLen r.segments r.cur_segment ∧
  (∀ seg, r.segments[r.cur_segment]? = some seg → r.cur_t < r.base_t + seg.length)

/-- Modelled from the spec: the spec's per-row termination condition for a
zero-vertical-curvature segment (spec section 4.4, step 1 and the claim's
wording): with `vy = y - H/2` and `divisor = (near*y_slope at fixed-point
scale) - vy`, the segment's contribution ends at row `y` exactly when
`divisor = 0`, the depth `z_offset + (z_offset*vy - y_offset*near)/divisor`
is negative, or the recovered local track distance lies outside
`[0, remaining segment length)`. -/
def specStopFlat (a : RoadArgs) (t_factor y : Int) : Prop :=
  let vy := y - tdiv a.h 2
  let divisor := sar (a.near * a.y_slope) FP_POS - vy
  divisor = 0 ∨
    (let depth := a.z_offset + tdiv (a.z_offset * vy - a.y_offset * a.near) divisor
     depth < 0 ∨
       (let t_local := sar ((depth - a.z_offset) * t_factor) FP_POS
        t_local < 0 ∨ a.length ≤ t_local))

instance (a : RoadArgs) (t_factor y : Int) : Decidable (specStopFlat a t_factor y) := by
  unfold specStopFlat
  exact inferInstance

/-- A visibility record with both bounds inside the screen row `[0, w]`. -/
def VisOK (w : Int) (l : LineVisibility) : Prop :=
  0 ≤ l.begin ∧ l.begin ≤ w ∧ 0 ≤ l.«end» ∧ l.«end» ≤ w

/-- A draw call whose coordinates are inside the screen. -/
def DrawOK (w h : Int) (d : Draw) : Prop :=
  0 ≤ d.x ∧ d.x < w ∧ 0 ≤ d.y ∧ d.y < h

/-- Every visibility record in bounds and every recorded draw on screen. -/
def FrameOK (w h : Int) (fr : Frame) : Prop :=
  (∀ y, VisOK w (fr.horizon y)) ∧ ∀ d ∈ fr.draws, DrawOK w h d

/-- Whether a colour is a sky colour (sky-pass draw). -/
def isSkyColor : Color → Bool
  | Color.sky _ => true
  | _ => false

/-- Number of rasterizer (non-sky) draw calls at pixel `(x, y)`. -/
def rasterCountAt (ds : List Draw) (x y : Int) : Nat :=
  (ds.filter (fun d => d.x = x && d.y = y && !(isSkyColor d.c))).length

/-- The spec's own flat-road scenario (spec section 8): one Flat/Flat
segment of large length, zero curvature, `near = 32`, `W = 320`,
`H = 240`, zero initial offsets. -/
def specScenarioRun : Except Frame Frame :=
  (RoadRenderer.new [⟨(SideInclination.Flat, SideInclination.Flat), 1048576, 0, 0⟩] 32).render
    320 240 512 0 0

/-- Completed 8×6 render of one Uphill/Uphill segment with `x_curve = -128`
whose uphill back-patches leave row 3 with `begin = 8 > end = 7`. -/
def cexRunA : Except Frame Frame :=
  (RoadRenderer.new [⟨(SideInclination.Uphill, SideInclination.Uphill), 1048576, -128, 0⟩] 8).render
    8 6 4096 512 128

/-- Completed 8×6 render of one Downhill/Uphill segment whose right uphill
back-patch paints pixel `(0, 0)` twice. -/
def cexRunB : Except Frame Frame :=
  (RoadRenderer.new [⟨(SideInclination.Downhill, SideInclination.Uphill), 1048576, 0, 0⟩] 8).render
    8 6 4096 512 32

/-- Single positive-length segment used in position-sequencer examples. -/
def oneSeg : List Segment :=
  [⟨(SideInclination.Flat, SideInclination.Flat), 10, 0, 0⟩]

/-- Concrete rasterizer arguments used in witnesses. -/
def argsW : RoadArgs :=
  { w := 8, h := 6, road_width := 4096, near := 8,
    style := (SideInclination.Flat, SideInclination.Flat),
    x_offset := 0, y_offset := 32, z_offset := 0, x_slope := 0, y_slope := 0,
    x_curve := 0, y_curve := 0, length := 1048576, t_start := 0 }

/-! ### Integer square root -/

theorem isqrtAux_bounds (num : Int) : ∀ (m : Nat) (n : Int), 0 ≤ n → n * n ≤ num →
    num < (n + 2 ^ m) * (n + 2 ^ m) →
    0 ≤ isqrtAux m (num - n * n) n ∧
    isqrtAux m (num - n * n) n * isqrtAux m (num - n * n) n ≤ num ∧
    num < (isqrtAux m (num - n * n) n + 1) * (isqrtAux m (num - n * n) n + 1) := by
  intro m
  induction m with
  | zero =>
    intro n hn h1 h2
    simp only [isqrtAux]
    exact ⟨hn, h1, by simpa using h2⟩
  | succ m ih =>
    intro n hn h1 h2
    have hb : (0 : Int) < 2 ^ m := by positivity
    simp only [isqrtAux]
    by_cases hc : (2 * n + 2 ^ m) * 2 ^ m ≤ num - n * n
    · rw [if_pos hc]
      have hrw : num - n * n - (2 * n + 2 ^ m) * 2 ^ m = num - (n + 2 ^ m) * (n + 2 ^ m) := by
        ring
      rw [hrw]
      have h1' : (n + 2 ^ m) * (n + 2 ^ m) ≤ num := by nlinarith
      have h2' : num < (n + 2 ^ m + 2 ^ m) * (n + 2 ^ m + 2 ^ m) := by
        have : (2 : Int) ^ (m + 1) = 2 ^ m + 2 ^ m := by ring
        nlinarith [h2]
      exact ih (n + 2 ^ m) (by linarith) h1' h2'
    · rw [if_neg hc]
      have h2' : num < (n + 2 ^ m) * (n + 2 ^ m) := by nlinarith
      exact ih n hn h1 h2'

theorem isqrt_char (num : Int) (h0 : 0 ≤ num) (h1 : num < 2 ^ 32) :
    0 ≤ isqrt num ∧ isqrt num * isqrt num ≤ num ∧
    num < (isqrt num + 1) * (isqrt num + 1) := by
  have h := isqrtAux_bounds num 16 0 le_rfl (by simpa using h0) (by norm_num at h1 ⊢; linarith)
  simpa [isqrt] using h

theorem isqrt_eq_intSqrt (num : Int) (h0 : 0 ≤ num) (h1 : num < 2 ^ 32) :
    isqrt num = Int.sqrt num := by
  obtain ⟨hpos, hle, hlt⟩ := isqrt_char num h0 h1
  have htn : ((num.toNat : Int)) = num := Int.toNat_of_nonneg h0
  have hrn : (((isqrt num).toNat : Int)) = isqrt num := Int.toNat_of_nonneg hpos
  have hle' : (isqrt num).toNat * (isqrt num).toNat ≤ num.toNat := by
    have h : ((isqrt num).toNat : Int) * ((isqrt num).toNat : Int) ≤ (num.toNat : Int) := by
      rw [hrn, htn]; exact hle
    exact_mod_cast h
  have hlt' : num.toNat < ((isqrt num).toNat + 1) * ((isqrt num).toNat + 1) := by
    have h : ((num.toNat : Int)) <
        (((isqrt num).toNat : Int) + 1) * (((isqrt num).toNat : Int) + 1) := by
      rw [hrn, htn]; exact hlt
    exact_mod_cast h
  have heq : (isqrt num).toNat = Nat.sqrt num.toNat := Nat.eq_sqrt.mpr ⟨hle', hlt'⟩
  have hs : Int.sqrt num = ((Nat.sqrt num.toNat : Nat) : Int) := rfl
  rw [hs, ← heq, hrn]

/-- C5: `isqrt` computes the integer square root on the full non-negative
`i32` range: it agrees with `Int.sqrt` (the floor of the real square root)
for `0 ≤ n < 2^31`, maps `0` to `0` and perfect squares `k*k` to `k`, and
is monotone on non-negative inputs. -/
theorem isqrt_correct :
    (∀ n : Int, 0 ≤ n → n < 2 ^ 31 → isqrt n = Int.sqrt n) ∧
    isqrt 0 = 0 ∧
    (∀ k : Int, 0 ≤ k → k * k < 2 ^ 31 → isqrt (k * k) = k) ∧
    (∀ a b : Int, 0 ≤ a → a ≤ b → b < 2 ^ 31 → isqrt a ≤ isqrt b) := by
  refine ⟨?_, ?_, ?_, ?_⟩
  · intro n h0 h1
    exact isqrt_eq_intSqrt n h0 (by norm_num at h1 ⊢; linarith)
  · rfl
  · intro k hk h1
    obtain ⟨hpos, hle, hlt⟩ := isqrt_char (k * k) (by positivity) (by norm_num at h1 ⊢; linarith)
    nlinarith
  · intro a b h0 hab h1
    obtain ⟨hpa, hlea, hlta⟩ := isqrt_char a h0 (by norm_num at h1 ⊢; linarith)
    obtain ⟨hpb, hleb, hltb⟩ := isqrt_char b (by linarith) (by norm_num at h1 ⊢; linarith)
    nlinarith

/-- Witness for C5 at concrete inputs. -/
theorem isqrt_correct_witness :
    isqrt 123456 = Int.sqrt 123456 ∧ isqrt (55 * 55) = 55 ∧ isqrt 100 ≤ isqrt 200 :=
  ⟨isqrt_correct.1 123456 (by norm_num) (by norm_num),
   isqrt_correct.2.2.1 55 (by norm_num) (by norm_num),
   isqrt_correct.2.2.2 100 200 (by norm_num) (by norm_num) (by norm_num)⟩

/-! ### Position sequencer -/

theorem prefixLen_zero (segs : List Segment) : prefixLen segs 0 = 0 := rfl

theorem prefixLen_succ (segs : List Segment) (cs : Nat) (seg : Segment)
    (h : segs[cs]? = some seg) :
    prefixLen segs (cs + 1) = prefixLen segs cs + seg.length := by
  simp [prefixLen, List.take_succ, h]

theorem prefixLen_nonneg (segs : List Segment) (hpos : ∀ s ∈ segs, 0 ≤ s.length) (k : Nat) :
    0 ≤ prefixLen segs k := by
  apply List.sum_nonneg
  intro x hx
  obtain ⟨s, hs, rfl⟩ := List.mem_map.mp hx
  exact hpos s (List.take_subset k segs hs)

theorem prefixLen_le_total (segs : List Segment) (hpos : ∀ s ∈ segs, 0 ≤ s.length) (k : Nat) :
    prefixLen segs k ≤ segTotal segs := by
  have hsplit : segTotal segs = prefixLen segs k + ((segs.drop k).map (fun s => s.length)).sum := by
    unfold segTotal prefixLen
    rw [← List.sum_append, ← List.map_append, List.take_append_drop]
  have hdrop : 0 ≤ ((segs.drop k).map (fun s => s.length)).sum := by
    apply List.sum_nonneg
    intro x hx
    obtain ⟨s, hs, rfl⟩ := List.mem_map.mp hx
    exact hpos s (List.drop_subset k segs hs)
  linarith

theorem advanceLoop_mono (segs : List Segment) :
    ∀ (fuel cs : Nat) (bT t : Int), cs ≤ (advanceLoop segs fuel cs bT t).1 := by
  intro fuel
  induction fuel with
  | zero => intro cs bT t; simp [advanceLoop]
  | succ fuel ih =>
    intro cs bT t
    cases h : segs[cs]? with
    | none => simp [advanceLoop, h]
    | some seg =>
      by_cases hc : bT + seg.length ≤ t
      · simp only [advanceLoop, h, if_pos hc]
        exact Nat.le_trans (Nat.le_succ cs) (ih (cs + 1) (bT + seg.length) t)
      · simp [advanceLoop, h, hc]

theorem advanceLoop_spec (segs : List Segment) :
    ∀ (fuel cs : Nat) (bT t : Int), segs.length ≤ cs + fuel → cs ≤ segs.length →
      bT = prefixLen segs cs → bT ≤ t →
      (advanceLoop segs fuel cs bT t).1 ≤ segs.length ∧
      (advanceLoop segs fuel cs bT t).2 = prefixLen segs (advanceLoop segs fuel cs bT t).1 ∧
      (advanceLoop segs fuel cs bT t).2 ≤ t ∧
      (∀ seg, segs[(advanceLoop segs fuel cs bT t).1]? = some seg →
        t < (advanceLoop segs fuel cs bT t).2 + seg.length) := by
  intro fuel
  induction fuel with
  | zero =>
    intro cs bT t hfuel hcs hbT hle
    refine ⟨by simpa using hcs, by simpa using hbT, by simpa using hle, ?_⟩
    intro seg hseg
    have : segs.length ≤ cs := by omega
    simp [advanceLoop, List.getElem?_eq_none this] at hseg
  | succ fuel ih =>
    intro cs bT t hfuel hcs hbT hle
    cases h : segs[cs]? with
    | none =>
      refine ⟨by simp [advanceLoop, h]; omega, by simp [advanceLoop, h, hbT], ?_, ?_⟩
      · simp [advanceLoop, h, hle]
      · intro seg hseg
        simp only [advanceLoop, h] at hseg
        exact Option.noConfusion hseg
    | some seg =>
      have hlt : cs < segs.length := by
        by_contra hh
        push_neg at hh
        simp [List.getElem?_eq_none hh] at h
      by_cases hc : bT + seg.length ≤ t
      · simp only [advanceLoop, h, if_pos hc]
        exact ih (cs + 1) (bT + seg.length) t (by omega) (by omega)
          (by rw [hbT, prefixLen_succ segs cs seg h]) hc
      · push_neg at hc
        simp only [advanceLoop, h, if_neg (not_le.mpr hc)]
        refine ⟨by omega, hbT, hle, ?_⟩
        intro s hs
        injection hs with hh
        subst hh
        linarith

/-- Extending sufficient fuel does not change the result of the loop. -/
theorem advanceLoop_fuelExt (segs : List Segment) :
    ∀ (fuel cs : Nat) (bT t : Int), segs.length ≤ cs + fuel →
      advanceLoop segs (fuel + 1) cs bT t = advanceLoop segs fuel cs bT t := by
  intro fuel
  induction fuel with
  | zero =>
    intro cs bT t hfuel
    have : segs.length ≤ cs := by omega
    simp [advanceLoop, List.getElem?_eq_none this]
  | succ fuel ih =>
    intro cs bT t hfuel
    cases h : segs[cs]? with
    | none => simp [advanceLoop, h]
    | some seg =>
      by_cases hc : bT + seg.length ≤ t
      · simp only [advanceLoop, h, if_pos hc]
        exact ih (cs + 1) (bT + seg.length) t (by omega)
      · simp [advanceLoop, h, hc]

/-- Re-running the loop with a later target distance from the stopping
state of an earlier target is the same as running once with the later
target. -/
theorem advanceLoop_trans (segs : List Segment) :
    ∀ (fuel1 fuel2 cs : Nat) (bT t1 t2 : Int), segs.length ≤ cs + fuel1 →
      segs.length ≤ cs + fuel2 → t1 ≤ t2 →
      advanceLoop segs fuel2 (advanceLoop segs fuel1 cs bT t1).1
        (advanceLoop segs fuel1 cs bT t1).2 t2 = advanceLoop segs fuel2 cs bT t2 := by
  intro fuel1
  induction fuel1 with
  | zero =>
    intro fuel2 cs bT t1 t2 hf1 hf2 ht
    simp [advanceLoop]
  | succ fuel1 ih =>
    intro fuel2 cs bT t1 t2 hf1 hf2 ht
    cases h : segs[cs]? with
    | none => simp [advanceLoop, h]
    | some seg =>
      have hlt : cs < segs.length := by
        by_contra hh
        push_neg at hh
        simp [List.getElem?_eq_none hh] at h
      by_cases hc : bT + seg.length ≤ t1
      · have hc2 : bT + seg.length ≤ t2 := le_trans hc ht
        cases fuel2 with
        | zero => omega
        | succ fuel2 =>
          simp only [advanceLoop, h, if_pos hc, if_pos hc2]
          rw [← advanceLoop_fuelExt segs fuel2 (cs + 1) (bT + seg.length) t2 (by omega)]
          exact ih (fuel2 + 1) (cs + 1) (bT + seg.length) t1 t2 (by omega) (by omega) ht
      · simp only [advanceLoop, h, if_neg hc]

theorem posInv_new (segs : List Segment) (near : Int)
    (hpos : ∀ s ∈ segs, 0 < s.length) : PosInv (RoadRenderer.new segs near) := by
  refine ⟨le_rfl, le_rfl, Nat.zero_le _, rfl, ?_⟩
  intro seg hseg
  have hmem : seg ∈ segs := List.getElem?_mem hseg
  have := hpos seg hmem
  simp [RoadRenderer.new]
  linarith

theorem posInv_advance (r : RoadRenderer) (step : Int)
    (hpos : ∀ s ∈ r.segments, 0 < s.length) (hinv : PosInv r) (hstep : 0 ≤ step) :
    PosInv (r.advance step) := by
  obtain ⟨h0, h1, h2, h3, _⟩ := hinv
  have hspec := advanceLoop_spec r.segments r.segments.length r.cur_segment r.base_t
    (r.cur_t + step) (by omega) h2 h3 (by linarith)
  obtain ⟨hs1, hs2, hs3, hs4⟩ := hspec
  unfold PosInv
  simp only [RoadRenderer.advance]
  refine ⟨?_, hs3, hs1, hs2, hs4⟩
  rw [hs2]
  exact prefixLen_nonneg r.segments (fun s hs => le_of_lt (hpos s hs)) _

theorem posInv_set (r : RoadRenderer) (t : Int)
    (hpos : ∀ s ∈ r.segments, 0 < s.length) (ht : 0 ≤ t) : PosInv (r.set t) := by
  have hreset : PosInv { r with cur_t := 0, base_t := 0, cur_segment := 0 } := by
    refine ⟨le_rfl, le_rfl, Nat.zero_le _, rfl, ?_⟩
    intro seg hseg
    have hmem : seg ∈ r.segments := List.getElem?_mem hseg
    have := hpos seg hmem
    simpa using by linarith
  exact posInv_advance _ t hpos hreset ht

theorem reach_fields (segs : List Segment) (near : Int) (r : RoadRenderer)
    (hr : Reach segs near r) : r.segments = segs ∧ r.near = near := by
  induction hr with
  | base => exact ⟨rfl, rfl⟩
  | adv r step hstep hr ih => exact ih
  | seek r t ht hr ih => exact ih

theorem reach_posInv (segs : List Segment) (near : Int) (r : RoadRenderer)
    (hpos : ∀ s ∈ segs, 0 < s.length) (hr : Reach segs near r) : PosInv r := by
  induction hr with
  | base => exact posInv_new segs near hpos
  | adv r step hstep hr ih =>
    have hsegs := (reach_fields segs near r hr).1
    exact posInv_advance r step (by rw [hsegs]; exact hpos) ih hstep
  | seek r t ht hr ih =>
    have hsegs := (reach_fields segs near r hr).1
    exact posInv_set r t (by rw [hsegs]; exact hpos) ht

theorem posInv_saturates (r : RoadRenderer)
    (hpos : ∀ s ∈ r.segments, 0 < s.length) (hinv : PosInv r)
    (htot : segTotal r.segments ≤ r.cur_t) : r.cur_segment = r.segments.length := by
  obtain ⟨h0, h1, h2, h3, h4⟩ := hinv
  by_contra hne
  have hlt : r.cur_segment < r.segments.length := lt_of_le_of_ne h2 hne
  have hget : r.segments[r.cur_segment]? = some r.segments[r.cur_segment] :=
    List.getElem?_eq_getElem hlt
  have hstop := h4 _ hget
  have hsucc : prefixLen r.segments (r.cur_segment + 1) =
      prefixLen r.segments r.cur_segment + r.segments[r.cur_segment].length :=
    prefixLen_succ _ _ _ hget
  have hle := prefixLen_le_total r.segments (fun s hs => le_of_lt (hpos s hs))
    (r.cur_segment + 1)
  rw [hsucc] at hle
  linarith

/-- C3 (amended): over positive-length segments, every state reachable by
non-negative `advance` and `set` calls from `new` satisfies
`cur_t ≥ base_t ≥ 0`, `base_t` is the sum of the lengths of the segments
before `cur_segment`, `cur_segment` never exceeds `segments.length` and
saturates there (no wraparound) once `cur_t` reaches the total track
length; and `cur_segment` never decreases across an `advance` call.
(The original claim also asserted that `cur_segment` never decreases
across `set` calls, which is false: `set` rewinds to segment 0 before
replaying — see the counterexample.) -/
theorem position_invariant (segs : List Segment) (near : Int) (r : RoadRenderer)
    (hpos : ∀ s ∈ segs, 0 < s.length) (hr : Reach segs near r) :
    (0 ≤ r.base_t ∧ r.base_t ≤ r.cur_t ∧
      r.base_t = prefixLen r.segments r.cur_segment ∧
      r.cur_segment ≤ r.segments.length ∧
      (segTotal r.segments ≤ r.cur_t → r.cur_segment = r.segments.length)) ∧
    (∀ step : Int, 0 ≤ step → r.cur_segment ≤ (r.advance step).cur_segment) := by
  have hsegs := (reach_fields segs near r hr).1
  have hinv := reach_posInv segs near r hpos hr
  obtain ⟨h0, h1, h2, h3, h4⟩ := hinv
  constructor
  · refine ⟨h0, h1, h3, h2, ?_⟩
    intro htot
    exact posInv_saturates r (by rw [hsegs]; exact hpos) ⟨h0, h1, h2, h3, h4⟩ htot
  · intro step _
    exact advanceLoop_mono r.segments r.segments.length r.cur_segment r.base_t
      (r.cur_t + step)

/-- Witness for C3 (amended) at a concrete reachable state. -/
theorem position_invariant_witness :
    (0 ≤ (RoadRenderer.new oneSeg 1).base_t ∧
      (RoadRenderer.new oneSeg 1).base_t ≤ (RoadRenderer.new oneSeg 1).cur_t ∧
      (RoadRenderer.new oneSeg 1).base_t =
        prefixLen (RoadRenderer.new oneSeg 1).segments (RoadRenderer.new oneSeg 1).cur_segment ∧
      (RoadRenderer.new oneSeg 1).cur_segment ≤ (RoadRenderer.new oneSeg 1).segments.length ∧
      (segTotal (RoadRenderer.new oneSeg 1).segments ≤ (RoadRenderer.new oneSeg 1).cur_t →
        (RoadRenderer.new oneSeg 1).cur_segment = (RoadRenderer.new oneSeg 1).segments.length)) ∧
    (∀ step : Int, 0 ≤ step →
      (RoadRenderer.new oneSeg 1).cur_segment ≤
        ((RoadRenderer.new oneSeg 1).advance step).cur_segment) :=
  position_invariant oneSeg 1 (RoadRenderer.new oneSeg 1) (by decide) Reach.base

/-- C3 counterexample: over the positive-length track `oneSeg`, the
sequence `advance 10; set 0` (all arguments non-negative) decreases
`cur_segment` from 1 back to 0, refuting "`cur_segment` never decreases
across the sequence" for sequences containing `set`. -/
theorem position_claim_counterexample :
    ((RoadRenderer.new oneSeg 1).advance 10).cur_segment = 1 ∧
    (((RoadRenderer.new oneSeg 1).advance 10).set 0).cur_segment = 0 ∧
    (∀ s ∈ oneSeg, 0 < s.length) ∧ (0 : Int) ≤ 10 ∧ (0 : Int) ≤ 0 := by
  decide

/-- Equation `advance a; advance b = advance (a+b)` for `0 ≤ b`, from any state. -/
theorem advance_add (r : RoadRenderer) (a b : Int) (hb : 0 ≤ b) :
    (r.advance a).advance b = r.advance (a + b) := by
  simp only [RoadRenderer.advance]
  have h := advanceLoop_trans r.segments r.segments.length r.segments.length
    r.cur_segment r.base_t (r.cur_t + a) (r.cur_t + (a + b)) (by omega) (by omega) (by omega)
  have hadd : r.cur_t + a + b = r.cur_t + (a + b) := by ring
  rw [hadd, h]

/-- C8: after any sequence of non-negative advances over positive-length
segments, `advance a; advance b` produces exactly the same position state
as `advance (a+b)`, for non-negative `a`, `b`. -/
theorem advance_composes (segs : List Segment) (near : Int) (pre : List Int) (a b : Int)
    (hpos : ∀ s ∈ segs, 0 < s.length) (hpre : ∀ x ∈ pre, 0 ≤ x)
    (ha : 0 ≤ a) (hb : 0 ≤ b) :
    ((applyAdvances pre (RoadRenderer.new segs near)).advance a).advance b =
      (applyAdvances pre (RoadRenderer.new segs near)).advance (a + b) :=
  advance_add _ a b hb

/-- Witness for C8 at concrete inputs. -/
theorem advance_composes_witness :
    ((applyAdvances [3] (RoadRenderer.new oneSeg 1)).advance 2).advance 5 =
      (applyAdvances [3] (RoadRenderer.new oneSeg 1)).advance (2 + 5) :=
  advance_composes oneSeg 1 [3] 2 5 (by decide) (by decide) (by decide) (by decide)

/-! ### Projection (`get_screen_pos`) -/

/-- C9: `get_screen_pos` never divides by zero: the divisor it uses is the
replayed accumulated depth with an exact zero replaced by one, and a
negative accumulated depth is used unchanged (so its sign propagates into
a negative inverse depth).  All three outputs are computed from that
non-zero divisor. -/
theorem get_screen_pos_divisor (r : RoadRenderer)
    (w h cxo cyo pt pxo pyo : Int) :
    ∃ d : Int,
      d ≠ 0 ∧
      d = (if (gspLoop r r.segments.length r.cur_segment pt
            { x_offset := cxo, y_offset := cyo, z_offset := 0,
              x_slope := 0, y_slope := 0 }).z_offset = 0 then 1
           else (gspLoop r r.segments.length r.cur_segment pt
            { x_offset := cxo, y_offset := cyo, z_offset := 0,
              x_slope := 0, y_slope := 0 }).z_offset) ∧
      ((gspLoop r r.segments.length r.cur_segment pt
          { x_offset := cxo, y_offset := cyo, z_offset := 0,
            x_slope := 0, y_slope := 0 }).z_offset < 0 →
        d = (gspLoop r r.segments.length r.cur_segment pt
          { x_offset := cxo, y_offset := cyo, z_offset := 0,
            x_slope := 0, y_slope := 0 }).z_offset) ∧
      get_screen_pos r w h cxo cyo pt pxo pyo =
        (tdiv w 2 + tdiv (r.near * (pxo - (gspLoop r r.segments.length r.cur_segment pt
            { x_offset := cxo, y_offset := cyo, z_offset := 0,
              x_slope := 0, y_slope := 0 }).x_offset)) d,
         tdiv h 2 + tdiv (r.near * ((gspLoop r r.segments.length r.cur_segment pt
            { x_offset := cxo, y_offset := cyo, z_offset := 0,
              x_slope := 0, y_slope := 0 }).y_offset - pyo)) d,
         tdiv (shl 1 (3 * FP_POS)) d) := by
  refine ⟨_, ?_, rfl, ?_, rfl⟩
  · split
    · exact one_ne_zero
    · next hne => exact hne
  · intro hneg
    rw [if_neg (by linarith)]

/-! ### Flat-branch scan loop (C2) -/

theorem roadFlat_stop_char_aux (a : RoadArgs) (base_tx t_factor : Int) :
    ∀ (fuel : Nat) (y y' : Int) (fr fr' : Frame), fuel = (y + 1).toNat →
      roadFlatLoop a base_tx t_factor fuel y fr = Except.ok (y', fr') →
      y' ≤ y ∧ (∀ k : Int, y' < k → k ≤ y → ¬ specStopFlat a t_factor k) ∧
      (0 ≤ y' → specStopFlat a t_factor y') := by
  intro fuel
  induction fuel with
  | zero =>
    intro y y' fr fr' hfuel hrun
    have hy : y < 0 := by omega
    simp only [roadFlatLoop] at hrun
    injection hrun with h
    injection h with h1 h2
    subst h1
    exact ⟨le_rfl, fun k hk1 hk2 => absurd hk1 (by omega), fun h0 => absurd h0 (by omega)⟩
  | succ fuel ih =>
    intro y y' fr fr' hfuel hrun
    have hy : 0 ≤ y := by omega
    simp only [roadFlatLoop] at hrun
    rw [if_neg (by omega : ¬ y < 0)] at hrun
    by_cases hdv : sar (a.near * a.y_slope) FP_POS - (y - tdiv a.h 2) = 0
    · rw [if_pos hdv] at hrun
      injection hrun with h
      injection h with h1 h2
      subst h1
      refine ⟨le_rfl, fun k hk1 hk2 => absurd hk1 (by omega), fun _ => ?_⟩
      simp only [specStopFlat]
      exact Or.inl hdv
    · rw [if_neg hdv] at hrun
      by_cases hz : a.z_offset + tdiv (a.z_offset * (y - tdiv a.h 2) - a.y_offset * a.near)
          (sar (a.near * a.y_slope) FP_POS - (y - tdiv a.h 2)) < 0
      · rw [if_pos hz] at hrun
        injection hrun with h
        injection h with h1 h2
        subst h1
        refine ⟨le_rfl, fun k hk1 hk2 => absurd hk1 (by omega), fun _ => ?_⟩
        simp only [specStopFlat]
        exact Or.inr (Or.inl hz)
      · rw [if_neg hz] at hrun
        by_cases htl : sar ((a.z_offset + tdiv (a.z_offset * (y - tdiv a.h 2) -
              a.y_offset * a.near) (sar (a.near * a.y_slope) FP_POS - (y - tdiv a.h 2)) -
              a.z_offset) * t_factor) FP_POS < 0 ∨
            a.length ≤ sar ((a.z_offset + tdiv (a.z_offset * (y - tdiv a.h 2) -
              a.y_offset * a.near) (sar (a.near * a.y_slope) FP_POS - (y - tdiv a.h 2)) -
              a.z_offset) * t_factor) FP_POS
        · rw [if_pos htl] at hrun
          injection hrun with h
          injection h with h1 h2
          subst h1
          refine ⟨le_rfl, fun k hk1 hk2 => absurd hk1 (by omega), fun _ => ?_⟩
          simp only [specStopFlat]
          exact Or.inr (Or.inr htl)
        · rw [if_neg htl] at hrun
          cases hline : render_road_line a.w a.h a.road_width a.style base_tx a.x_offset
              a.x_slope a.x_curve y
              (a.z_offset + tdiv (a.z_offset * (y - tdiv a.h 2) - a.y_offset * a.near)
                (sar (a.near * a.y_slope) FP_POS - (y - tdiv a.h 2)))
              (a.z_offset + tdiv (a.z_offset * (y - tdiv a.h 2) - a.y_offset * a.near)
                (sar (a.near * a.y_slope) FP_POS - (y - tdiv a.h 2)) - a.z_offset)
              (a.t_start + sar ((a.z_offset + tdiv (a.z_offset * (y - tdiv a.h 2) -
                a.y_offset * a.near) (sar (a.near * a.y_slope) FP_POS - (y - tdiv a.h 2)) -
                a.z_offset) * t_factor) FP_POS) fr with
          | error fr1 =>
            rw [hline] at hrun
            exact Except.noConfusion hrun
          | ok fr1 =>
            rw [hline] at hrun
            obtain ⟨ih1, ih2, ih3⟩ := ih (y - 1) y' fr1 fr' (by omega) hrun
            refine ⟨by omega, ?_, ih3⟩
            intro k hk1 hk2
            by_cases hky : k = y
            · subst hky
              intro hstop
              simp only [specStopFlat] at hstop
              rcases hstop with h | h | h
              · exact hdv h
              · exact hz h
              · exact htl h
            · exact ih2 k hk1 (by omega)

/-- C2: for a zero-vertical-curvature segment, whenever the scan loop
completes without panicking, its per-row processing stops exactly at the
spec's termination condition: the final cursor `y'` is the first row at
or below the entry cursor where `divisor = 0`, the depth
`z_offset + (z_offset*vy - y_offset*near)/divisor` (with `vy = y - H/2`,
`divisor = ((near*y_slope) >> FP_POS) - vy`) is negative, or the
recovered `t_local` lies outside `[0, length)`; every row strictly above
`y'` and at or below the entry cursor was processed (no such condition
held there), and the cursor is handed onward at `y'` rather than being
reset. -/
theorem flat_scan_stops_exactly (a : RoadArgs) (base_tx t_factor y y' : Int) (fr fr' : Frame)
    (hrun : roadFlatLoop a base_tx t_factor (y + 1).toNat y fr = Except.ok (y', fr')) :
    y' ≤ y ∧ (∀ k : Int, y' < k → k ≤ y → ¬ specStopFlat a t_factor k) ∧
    (0 ≤ y' → specStopFlat a t_factor y') :=
  roadFlat_stop_char_aux a base_tx t_factor (y + 1).toNat y y' fr fr' rfl hrun

/-- Witness for C2: a concrete completed scan over the 8×6 witness
arguments (entry cursor 5, camera height 32) stops at row 3, where the
divisor vanishes. -/
theorem flat_scan_stops_exactly_witness :
    (3 : Int) ≤ 5 ∧
    (∀ k : Int, (3 : Int) < k → k ≤ 5 → ¬ specStopFlat argsW 256 k) ∧
    ((0 : Int) ≤ 3 → specStopFlat argsW 256 3) :=
  flat_scan_stops_exactly argsW 32 256 5 3 (initFrame 8)
    (frameOfR (roadFlatLoop argsW 32 256 6 5 (initFrame 8))) (by rfl)

/-! ### Termination structure (C6) -/

theorem roadFlat_cursor_le (a : RoadArgs) (base_tx t_factor : Int) :
    ∀ (fuel : Nat) (y y' : Int) (fr fr' : Frame),
      roadFlatLoop a base_tx t_factor fuel y fr = Except.ok (y', fr') → y' ≤ y := by
  intro fuel
  induction fuel with
  | zero =>
    intro y y' fr fr' hrun
    simp only [roadFlatLoop] at hrun
    injection hrun with h
    injection h with h1 h2
    omega
  | succ fuel ih =>
    intro y y' fr fr' hrun
    simp only [roadFlatLoop] at hrun
    iterate 5 (all_goals try split at hrun)
    all_goals first
      | (injection hrun with h; injection h with h1 h2; omega)
      | (exact Except.noConfusion hrun)
      | (exact le_trans (ih _ _ _ _ hrun) (by omega))

theorem roadCurved_cursor_le (a : RoadArgs) (base_tx inv_near tsqrtcurve : Int) :
    ∀ (fuel : Nat) (y y' : Int) (fr fr' : Frame),
      roadCurvedLoop a base_tx inv_near tsqrtcurve fuel y fr = Except.ok (y', fr') → y' ≤ y := by
  intro fuel
  induction fuel with
  | zero =>
    intro y y' fr fr' hrun
    simp only [roadCurvedLoop] at hrun
    injection hrun with h
    injection h with h1 h2
    omega
  | succ fuel ih =>
    intro y y' fr fr' hrun
    simp only [roadCurvedLoop] at hrun
    iterate 5 (all_goals try split at hrun)
    all_goals first
      | (injection hrun with h; injection h with h1 h2; omega)
      | (exact Except.noConfusion hrun)
      | (exact le_trans (ih _ _ _ _ hrun) (by omega))

theorem render_road_cursor_le (a : RoadArgs) (y y' : Int) (fr fr' : Frame)
    (hrun : render_road a y fr = Except.ok (y', fr')) : y' ≤ y := by
  simp only [render_road] at hrun
  split at hrun
  · exact roadFlat_cursor_le a _ _ _ y y' fr fr' hrun
  · exact roadCurved_cursor_le a _ _ _ _ y y' fr fr' hrun

theorem patchLeftWalk_draws_le (c : Color) :
    ∀ (n : Nat) (x0 : Int) (fr : Frame),
      (patchLeftWalk c n x0 fr).draws.length ≤ fr.draws.length + n := by
  intro n
  induction n with
  | zero => intro x0 fr; simp [patchLeftWalk]
  | succ n ih =>
    intro x0 fr
    simp only [patchLeftWalk]
    split
    · split
      · simp only [pushDraw, List.length_append, List.length_cons, List.length_nil]
        omega
      · dsimp only
        omega
    · refine le_trans (ih _ _) ?_
      split
      · simp only [pushDraw, List.length_append, List.length_cons, List.length_nil]
        omega
      · dsimp only
        omega

theorem patchRightWalk_draws_le (w : Int) (c : Color) :
    ∀ (n : Nat) (x0 : Int) (fr : Frame),
      (patchRightWalk w c n x0 fr).draws.length ≤ fr.draws.length + n := by
  intro n
  induction n with
  | zero => intro x0 fr; simp [patchRightWalk]
  | succ n ih =>
    intro x0 fr
    simp only [patchRightWalk]
    split
    · split
      · simp only [pushDraw, List.length_append, List.length_cons, List.length_nil]
        omega
      · dsimp only
        omega
    · refine le_trans (ih _ _) ?_
      split
      · simp only [pushDraw, List.length_append, List.length_cons, List.length_nil]
        omega
      · dsimp only
        omega

/-- C6: the structural termination facts of a render call: the `isqrt`
loop is a fixed 16-step recursion; each per-segment row scan only ever
hands back a cursor at or below the one it received (it strictly
decreases the cursor or breaks); each uphill back-patch walk issues at
most as many draw calls as its row bound; the per-segment loop is bounded
by the number of segments (its fuel); and every render call returns,
producing a finite draw list. -/
theorem render_terminates :
    (∀ num : Int, isqrt num = isqrtAux 16 num 0) ∧
    (∀ (a : RoadArgs) (base_tx t_factor : Int) (fuel : Nat) (y y' : Int) (fr fr' : Frame),
      roadFlatLoop a base_tx t_factor fuel y fr = Except.ok (y', fr') → y' ≤ y) ∧
    (∀ (a : RoadArgs) (base_tx inv_near tsqrtcurve : Int) (fuel : Nat) (y y' : Int)
      (fr fr' : Frame),
      roadCurvedLoop a base_tx inv_near tsqrtcurve fuel y fr = Except.ok (y', fr') → y' ≤ y) ∧
    (∀ (c : Color) (n : Nat) (x0 : Int) (fr : Frame),
      (patchLeftWalk c n x0 fr).draws.length ≤ fr.draws.length + n) ∧
    (∀ (w : Int) (c : Color) (n : Nat) (x0 : Int) (fr : Frame),
      (patchRightWalk w c n x0 fr).draws.length ≤ fr.draws.length + n) ∧
    (∀ (r : RoadRenderer) (w h road_width xo yo : Int),
      ∃ ds : List Draw, traceOf (r.render w h road_width xo yo) = ds) :=
  ⟨fun _ => rfl,
   fun a bt tf fuel y y' fr fr' h => roadFlat_cursor_le a bt tf fuel y y' fr fr' h,
   fun a bt inn tsq fuel y y' fr fr' h => roadCurved_cursor_le a bt inn tsq fuel y y' fr fr' h,
   fun c n x0 fr => patchLeftWalk_draws_le c n x0 fr,
   fun w c n x0 fr => patchRightWalk_draws_le w c n x0 fr,
   fun r w h rw xo yo => ⟨_, rfl⟩⟩

/-- Witness for C6: the concrete completed scan of the C2 witness hands
back cursor 3 from entry cursor 5. -/
theorem render_terminates_witness : (3 : Int) ≤ 5 :=
  render_terminates.2.1 argsW 32 256 6 5 3 (initFrame 8)
    (frameOfR (roadFlatLoop argsW 32 256 6 5 (initFrame 8))) (by rfl)

/-! ### Screen-bounds invariants (C10, C4) -/

theorem rangeDraws_mem (a b y : Int) (c : Color) (d : Draw) (hd : d ∈ rangeDraws a b y c) :
    d.c = c ∧ d.y = y ∧ a ≤ d.x ∧ d.x < b := by
  unfold rangeDraws at hd
  rw [List.mem_map] at hd
  obtain ⟨k, hk, rfl⟩ := hd
  rw [List.mem_range] at hk
  exact ⟨rfl, rfl, by show a ≤ a + (k : Int); omega, by show a + (k : Int) < b; omega⟩

theorem frameOK_pushDraw (w h : Int) (fr : Frame) (d : Draw)
    (hfr : FrameOK w h fr) (hd : DrawOK w h d) : FrameOK w h (pushDraw fr d) := by
  refine ⟨hfr.1, ?_⟩
  intro d' hd'
  simp only [pushDraw, List.mem_append, List.mem_singleton] at hd'
  rcases hd' with hd' | rfl
  · exact hfr.2 d' hd'
  · exact hd

theorem frameOK_setRow (w h : Int) (fr : Frame) (i : Int) (l : LineVisibility)
    (hfr : FrameOK w h fr) (hl : VisOK w l) :
    FrameOK w h { fr with horizon := setRow fr.horizon i l } := by
  refine ⟨?_, hfr.2⟩
  intro y
  simp only [setRow]
  split
  · exact hl
  · exact hfr.1 y

theorem frameOK_appendRange (w h : Int) (fr : Frame) (a b y : Int) (c : Color)
    (hfr : FrameOK w h fr) (ha : 0 ≤ a) (hb : b ≤ w) (hy0 : 0 ≤ y) (hyh : y < h) :
    FrameOK w h (appendRange fr a b y c) := by
  refine ⟨hfr.1, ?_⟩
  intro d hd
  simp only [appendRange, List.mem_append] at hd
  rcases hd with hd | hd
  · exact hfr.2 d hd
  · obtain ⟨_, hdy, hax, hxb⟩ := rangeDraws_mem a b y c d hd
    exact ⟨by omega, by omega, by omega, by omega⟩

theorem initFrame_ok (w h : Int) (hw : 0 ≤ w) : FrameOK w h (initFrame w) := by
  refine ⟨?_, ?_⟩
  · intro y
    exact ⟨le_rfl, hw, hw, le_rfl⟩
  · intro d hd
    simp [initFrame] at hd

theorem patchLeftWalk_ok (w h : Int) (c : Color) :
    ∀ (n : Nat) (x0 : Int) (fr : Frame), FrameOK w h fr → 0 ≤ x0 → x0 < w →
      (n : Int) ≤ h → FrameOK w h (patchLeftWalk c n x0 fr) := by
  intro n
  induction n with
  | zero => intro x0 fr hfr _ _ _; simpa [patchLeftWalk] using hfr
  | succ n ih =>
    intro x0 fr hfr hx0 hxw hn
    obtain ⟨hb0, hbw, he0, hew⟩ := hfr.1 (n : Int)
    have hvisok : VisOK w ({ fr.horizon (n : Int) with
        begin := max (fr.horizon (n : Int)).begin (x0 + 1) }) := by
      refine ⟨?_, ?_, ?_, ?_⟩
      · show (0 : Int) ≤ max (fr.horizon (n : Int)).begin (x0 + 1)
        omega
      · show max (fr.horizon (n : Int)).begin (x0 + 1) ≤ w
        omega
      · exact he0
      · exact hew
    have hdok : DrawOK w h { x := x0, y := (n : Int), c := c } := by
      refine ⟨hx0, hxw, ?_, ?_⟩
      · show (0 : Int) ≤ (n : Int)
        omega
      · show ((n : Int)) < h
        omega
    have hset := frameOK_setRow w h fr (n : Int)
      ({ fr.horizon (n : Int) with begin := max (fr.horizon (n : Int)).begin (x0 + 1) })
      hfr hvisok
    simp only [patchLeftWalk]
    split
    · split
      · exact frameOK_pushDraw w h _ _ hset hdok
      · exact hset
    · refine ih (x0 - 1) _ ?_ (by omega) (by omega) (by omega)
      split
      · exact frameOK_pushDraw w h _ _ hset hdok
      · exact hset

theorem patchLeftOuter_ok (w h y : Int) (c : Color) (hw : 0 < w) (hy0 : 0 ≤ y)
    (hyh : y < h) :
    ∀ (n : Nat) (x : Int) (fr : Frame), FrameOK w h fr → 0 ≤ x →
      FrameOK w h (patchLeftOuter w y c n x fr) := by
  intro n
  induction n with
  | zero => intro x fr hfr _; simpa [patchLeftOuter] using hfr
  | succ n ih =>
    intro x fr hfr hx
    simp only [patchLeftOuter]
    refine ih (x + 1) _ ?_ (by omega)
    split
    · exact patchLeftWalk_ok w h c _ (w - 1) fr hfr (by omega) (by omega) (by omega)
    · next hxl =>
      exact patchLeftWalk_ok w h c _ x fr hfr hx (by omega) (by omega)

theorem patchRightWalk_ok (w h : Int) (c : Color) :
    ∀ (n : Nat) (x0 : Int) (fr : Frame), FrameOK w h fr → 0 ≤ x0 → x0 < w →
      (n : Int) ≤ h → FrameOK w h (patchRightWalk w c n x0 fr) := by
  intro n
  induction n with
  | zero => intro x0 fr hfr _ _ _; simpa [patchRightWalk] using hfr
  | succ n ih =>
    intro x0 fr hfr hx0 hxw hn
    obtain ⟨hb0, hbw, he0, hew⟩ := hfr.1 (n : Int)
    have hvisok : VisOK w ({ fr.horizon (n : Int) with
        «end» := min (fr.horizon (n : Int)).«end» x0 }) := by
      refine ⟨hb0, hbw, ?_, ?_⟩
      · show (0 : Int) ≤ min (fr.horizon (n : Int)).«end» x0
        omega
      · show min (fr.horizon (n : Int)).«end» x0 ≤ w
        omega
    have hdok : DrawOK w h { x := x0, y := (n : Int), c := c } := by
      refine ⟨hx0, hxw, ?_, ?_⟩
      · show (0 : Int) ≤ (n : Int)
        omega
      · show ((n : Int)) < h
        omega
    have hset := frameOK_setRow w h fr (n : Int)
      ({ fr.horizon (n : Int) with «end» := min (fr.horizon (n : Int)).«end» x0 })
      hfr hvisok
    simp only [patchRightWalk]
    split
    · split
      · exact frameOK_pushDraw w h _ _ hset hdok
      · exact hset
    · refine ih (x0 + 1) _ ?_ (by omega) (by omega) (by omega)
      split
      · exact frameOK_pushDraw w h _ _ hset hdok
      · exact hset

theorem patchRightOuter_ok (w h y : Int) (c : Color) (hw : 0 < w) (hy0 : 0 ≤ y)
    (hyh : y < h) :
    ∀ (n : Nat) (x : Int) (fr : Frame), FrameOK w h fr →
      ((n : Int) + x ≤ w ∨ n = 0) → FrameOK w h (patchRightOuter w y c n x fr) := by
  intro n
  induction n with
  | zero => intro x fr hfr _; simpa [patchRightOuter] using hfr
  | succ n ih =>
    intro x fr hfr hbound
    have hxw : x < w := by
      rcases hbound with hb | hb
      · push_cast at hb; omega
      · exact absurd hb (Nat.succ_ne_zero n)
    simp only [patchRightOuter]
    refine ih (x + 1) _ ?_ ?_
    · split
      · exact patchRightWalk_ok w h c _ 0 fr hfr le_rfl (by omega) (by omega)
      · next hxl =>
        exact patchRightWalk_ok w h c _ x fr hfr (by omega) hxw (by omega)
    · rcases hbound with hb | hb
      · left; push_cast at hb ⊢; omega
      · exact absurd hb (Nat.succ_ne_zero n)

theorem centerLoop_ok (w h t_global tx_step y : Int) (hy0 : 0 ≤ y) (hyh : y < h) :
    ∀ (n : Nat) (x tx : Int) (fr : Frame), FrameOK w h fr → 0 ≤ x →
      ((n : Int) + x ≤ w ∨ n = 0) → FrameOK w h (centerLoop t_global tx_step y n x tx fr) := by
  intro n
  induction n with
  | zero => intro x tx fr hfr _ _; simpa [centerLoop] using hfr
  | succ n ih =>
    intro x tx fr hfr hx hbound
    have hxw : x < w := by
      rcases hbound with hb | hb
      · push_cast at hb; omega
      · exact absurd hb (Nat.succ_ne_zero n)
    simp only [centerLoop]
    refine ih (x + 1) (tx + tx_step) _ ?_ (by omega) ?_
    · exact frameOK_pushDraw w h fr _ hfr ⟨hx, hxw, hy0, hyh⟩
    · rcases hbound with hb | hb
      · left; push_cast at hb ⊢; omega
      · exact absurd hb (Nat.succ_ne_zero n)

theorem frameOf_ok (fr : Frame) : frameOf (Except.ok fr) = fr := rfl

theorem frameOf_error (fr : Frame) : frameOf (Except.error fr) = fr := rfl

theorem leftSide_ok (w h y road_left road_begin : Int) (c : Color) (line0 : LineVisibility)
    (sl : SideInclination) (fr : Frame)
    (hw : 0 < w) (hy0 : 0 ≤ y) (hyh : y < h) (hfr : FrameOK w h fr)
    (hline : VisOK w line0) (hrb0 : 0 ≤ road_begin) (hrbw : road_begin ≤ w) :
    FrameOK w h (leftSide w y road_left road_begin c line0 sl fr).1 ∧
    0 ≤ (leftSide w y road_left road_begin c line0 sl fr).2 ∧
    (leftSide w y road_left road_begin c line0 sl fr).2 ≤ w := by
  obtain ⟨hb0, hbw, he0, hew⟩ := hline
  cases sl with
  | Uphill =>
    simp only [leftSide]
    exact ⟨patchLeftOuter_ok w h y c hw hy0 hyh _ line0.begin fr hfr hb0, le_rfl, by omega⟩
  | Flat =>
    simp only [leftSide]
    exact ⟨frameOK_appendRange w h fr line0.begin road_begin y c hfr hb0 hrbw hy0 hyh,
      le_rfl, by omega⟩
  | Downhill =>
    simp only [leftSide]
    refine ⟨hfr, ?_, ?_⟩ <;> split <;> omega

theorem rightSide_ok (w h y road_right road_end : Int) (c : Color) (line0 : LineVisibility)
    (sr : SideInclination) (fr : Frame)
    (hw : 0 < w) (hy0 : 0 ≤ y) (hyh : y < h) (hfr : FrameOK w h fr)
    (hline : VisOK w line0) (hre0 : 0 ≤ road_end) (hrew : road_end ≤ w) :
    FrameOK w h (rightSide w y road_right road_end c line0 sr fr).1 ∧
    0 ≤ (rightSide w y road_right road_end c line0 sr fr).2 ∧
    (rightSide w y road_right road_end c line0 sr fr).2 ≤ w := by
  obtain ⟨hb0, hbw, he0, hew⟩ := hline
  cases sr with
  | Uphill =>
    simp only [rightSide]
    refine ⟨patchRightOuter_ok w h y c hw hy0 hyh _ road_right fr hfr ?_, by omega, le_rfl⟩
    omega
  | Flat =>
    simp only [rightSide]
    exact ⟨frameOK_appendRange w h fr road_end line0.«end» y c hfr hre0 hew hy0 hyh,
      by omega, le_rfl⟩
  | Downhill =>
    simp only [rightSide]
    refine ⟨hfr, ?_, ?_⟩ <;> split <;> omega

theorem render_road_line_ok (w h road_width : Int) (style : SideInclination × SideInclination)
    (base_tx x_offset x_slope x_curve y z z_local t_global : Int) (fr : Frame)
    (hw : 0 < w) (hy0 : 0 ≤ y) (hyh : y < h) (hfr : FrameOK w h fr) :
    FrameOK w h (frameOf (render_road_line w h road_width style base_tx x_offset x_slope
      x_curve y z z_local t_global fr)) := by
  obtain ⟨hb0, hbw, he0, hew⟩ := hfr.1 y
  simp only [render_road_line]
  split
  · rw [frameOf_error]
    exact hfr
  · rw [frameOf_ok]
    apply frameOK_setRow
    · apply (rightSide_ok w h y _ _ _ _ _ _ hw hy0 hyh ?_ ⟨hb0, hbw, he0, hew⟩ ?_ ?_).1
      · apply centerLoop_ok w h _ _ y hy0 hyh
        · exact (leftSide_ok w h y _ _ _ _ _ _ hw hy0 hyh hfr ⟨hb0, hbw, he0, hew⟩
            (by omega) (by omega)).1
        · omega
        · omega
      · omega
      · omega
    · refine ⟨?_, ?_, ?_, ?_⟩
      · show (0 : Int) ≤ (leftSide _ _ _ _ _ _ _ _).2
        exact (leftSide_ok w h y _ _ _ _ _ _ hw hy0 hyh hfr ⟨hb0, hbw, he0, hew⟩
          (by omega) (by omega)).2.1
      · show (leftSide _ _ _ _ _ _ _ _).2 ≤ w
        exact (leftSide_ok w h y _ _ _ _ _ _ hw hy0 hyh hfr ⟨hb0, hbw, he0, hew⟩
          (by omega) (by omega)).2.2
      · show (0 : Int) ≤ (rightSide _ _ _ _ _ _ _ _).2
        apply (rightSide_ok w h y _ _ _ _ _ _ hw hy0 hyh ?_ ⟨hb0, hbw, he0, hew⟩ ?_ ?_).2.1
        · apply centerLoop_ok w h _ _ y hy0 hyh
          · exact (leftSide_ok w h y _ _ _ _ _ _ hw hy0 hyh hfr ⟨hb0, hbw, he0, hew⟩
              (by omega) (by omega)).1
          · omega
          · omega
        · omega
        · omega
      · show (rightSide _ _ _ _ _ _ _ _).2 ≤ w
        apply (rightSide_ok w h y _ _ _ _ _ _ hw hy0 hyh ?_ ⟨hb0, hbw, he0, hew⟩ ?_ ?_).2.2
        · apply centerLoop_ok w h _ _ y hy0 hyh
          · exact (leftSide_ok w h y _ _ _ _ _ _ hw hy0 hyh hfr ⟨hb0, hbw, he0, hew⟩
              (by omega) (by omega)).1
          · omega
          · omega
        · omega
        · omega

theorem frameOfR_ok (p : Int × Frame) : frameOfR (Except.ok p) = p.2 := rfl

theorem frameOfR_error (fr : Frame) : frameOfR (Except.error fr) = fr := rfl

theorem roadFlatLoop_ok (a : RoadArgs) (base_tx t_factor : Int) (hw : 0 < a.w) :
    ∀ (fuel : Nat) (y : Int) (fr : Frame), FrameOK a.w a.h fr → y < a.h →
      FrameOK a.w a.h (frameOfR (roadFlatLoop a base_tx t_factor fuel y fr)) := by
  intro fuel
  induction fuel with
  | zero => intro y fr hfr hy; exact hfr
  | succ fuel ih =>
    intro y fr hfr hy
    simp only [roadFlatLoop]
    by_cases hyn : y < 0
    · rw [if_pos hyn]; exact hfr
    · rw [if_neg hyn]
      split
      · exact hfr
      · split
        · exact hfr
        · split
          · exact hfr
          · have hlok := render_road_line_ok a.w a.h a.road_width a.style base_tx a.x_offset
              a.x_slope a.x_curve y
              (a.z_offset + tdiv (a.z_offset * (y - tdiv a.h 2) - a.y_offset * a.near) (sar (a.near * a.y_slope) FP_POS - (y - tdiv a.h 2)))
              ((a.z_offset + tdiv (a.z_offset * (y - tdiv a.h 2) - a.y_offset * a.near) (sar (a.near * a.y_slope) FP_POS - (y - tdiv a.h 2))) - a.z_offset)
              (a.t_start + sar (((a.z_offset + tdiv (a.z_offset * (y - tdiv a.h 2) - a.y_offset * a.near) (sar (a.near * a.y_slope) FP_POS - (y - tdiv a.h 2))) - a.z_offset) * t_factor) FP_POS)
              fr hw (by omega) hy hfr
            split
            · next fr1 heq =>
              rw [heq, frameOf_error] at hlok
              exact hlok
            · next fr1 heq =>
              rw [heq, frameOf_ok] at hlok
              exact ih (y - 1) fr1 hlok (by omega)

theorem roadCurvedLoop_ok (a : RoadArgs) (base_tx inv_near tsqrtcurve : Int) (hw : 0 < a.w) :
    ∀ (fuel : Nat) (y : Int) (fr : Frame), FrameOK a.w a.h fr → y < a.h →
      FrameOK a.w a.h (frameOfR (roadCurvedLoop a base_tx inv_near tsqrtcurve fuel y fr)) := by
  intro fuel
  induction fuel with
  | zero => intro y fr hfr hy; exact hfr
  | succ fuel ih =>
    intro y fr hfr hy
    simp only [roadCurvedLoop]
    by_cases hyn : y < 0
    · rw [if_pos hyn]; exact hfr
    · rw [if_neg hyn]
      split
      · exact hfr
      · split
        · exact hfr
        · split
          · exact hfr
          · have hlok := render_road_line_ok a.w a.h a.road_width a.style base_tx a.x_offset
              a.x_slope a.x_curve y
              ((tdiv (shl ((y - tdiv a.h 2) * inv_near - a.y_slope) FP_POS - shl (isqrt (shl (((y - tdiv a.h 2) * inv_near - a.y_slope) * ((y - tdiv a.h 2) * inv_near - a.y_slope) + 4 * (sar (a.z_offset * ((y - tdiv a.h 2) * inv_near)) FP_POS - a.y_offset) * a.y_curve) (FP_POS / 2))) (FP_POS - FP_POS / 4)) (2 * a.y_curve)) + a.z_offset)
              (tdiv (shl ((y - tdiv a.h 2) * inv_near - a.y_slope) FP_POS - shl (isqrt (shl (((y - tdiv a.h 2) * inv_near - a.y_slope) * ((y - tdiv a.h 2) * inv_near - a.y_slope) + 4 * (sar (a.z_offset * ((y - tdiv a.h 2) * inv_near)) FP_POS - a.y_offset) * a.y_curve) (FP_POS / 2))) (FP_POS - FP_POS / 4)) (2 * a.y_curve))
              (a.t_start + (tsqrtcurve * sar (tdiv (sar (tdiv (shl ((y - tdiv a.h 2) * inv_near - a.y_slope) FP_POS - shl (isqrt (shl (((y - tdiv a.h 2) * inv_near - a.y_slope) * ((y - tdiv a.h 2) * inv_near - a.y_slope) + 4 * (sar (a.z_offset * ((y - tdiv a.h 2) * inv_near)) FP_POS - a.y_offset) * a.y_curve) (FP_POS / 2))) (FP_POS - FP_POS / 4)) (2 * a.y_curve)) (FP_POS / 2) * sar (tdiv (shl ((y - tdiv a.h 2) * inv_near - a.y_slope) FP_POS - shl (isqrt (shl (((y - tdiv a.h 2) * inv_near - a.y_slope) * ((y - tdiv a.h 2) * inv_near - a.y_slope) + 4 * (sar (a.z_offset * ((y - tdiv a.h 2) * inv_near)) FP_POS - a.y_offset) * a.y_curve) (FP_POS / 2))) (FP_POS - FP_POS / 4)) (2 * a.y_curve)) (FP_POS / 2)) 4) FP_POS))
              fr hw (by omega) hy hfr
            split
            · next fr1 heq =>
              rw [heq, frameOf_error] at hlok
              exact hlok
            · next fr1 heq =>
              rw [heq, frameOf_ok] at hlok
              exact ih (y - 1) fr1 hlok (by omega)

theorem render_road_ok (a : RoadArgs) (y : Int) (fr : Frame) (hw : 0 < a.w)
    (hfr : FrameOK a.w a.h fr) (hy : y < a.h) :
    FrameOK a.w a.h (frameOfR (render_road a y fr)) := by
  simp only [render_road]
  split
  · exact roadFlatLoop_ok a _ _ hw _ y fr hfr hy
  · exact roadCurvedLoop_ok a _ _ _ hw _ y fr hfr hy

theorem renderSegLoop_ok (r : RoadRenderer) (w h road_width : Int) (hw : 0 < w) :
    ∀ (fuel i : Nat) (s : ProjState) (t_start y : Int) (fr : Frame),
      FrameOK w h fr → y < h →
      FrameOK w h (frameOfS (renderSegLoop r w h road_width fuel i s t_start y fr)) := by
  intro fuel
  induction fuel with
  | zero => intro i s t_start y fr hfr hy; exact hfr
  | succ fuel ih =>
    intro i s t_start y fr hfr hy
    simp only [renderSegLoop]
    cases hseg : r.segments[i]? with
    | none => simp only [hseg]; exact hfr
    | some seg =>
      simp only [hseg]
      have hroad := render_road_ok (segArgs r w h road_width seg s t_start
        (if i = r.cur_segment then r.cur_t - r.base_t else 0)) y fr hw hfr hy
      split
      · next fr1 heq =>
        rw [heq, frameOfR_error] at hroad
        exact hroad
      · next y1 fr1 heq =>
        rw [heq, frameOfR_ok] at hroad
        have hy1 : y1 ≤ y := render_road_cursor_le _ y y1 fr fr1 heq
        exact ih (i + 1) _ _ y1 fr1 hroad (by omega)

theorem skyLoop_draws_ok (w h : Int) (hz : Int → LineVisibility)
    (hvis : ∀ y, VisOK w (hz y)) :
    ∀ (n : Nat) (y0 : Int), 0 ≤ y0 → y0 + n ≤ h →
      ∀ d ∈ skyLoop w hz n y0, DrawOK w h d := by
  intro n
  induction n with
  | zero => intro y0 _ _ d hd; simp [skyLoop] at hd
  | succ n ih =>
    intro y0 hy0 hyh d hd
    simp only [skyLoop, List.mem_append] at hd
    rcases hd with hd | hd
    · obtain ⟨hb0, hbw, he0, hew⟩ := hvis y0
      simp only [skyLine] at hd
      split at hd
      · rcases List.mem_append.mp hd with hd | hd
        · obtain ⟨_, hdy, hax, hxb⟩ := rangeDraws_mem _ _ _ _ _ hd
          exact ⟨by omega, by omega, by omega, by omega⟩
        · obtain ⟨_, hdy, hax, hxb⟩ := rangeDraws_mem _ _ _ _ _ hd
          exact ⟨by omega, by omega, by omega, by omega⟩
      · obtain ⟨_, hdy, hax, hxb⟩ := rangeDraws_mem _ _ _ _ _ hd
        exact ⟨by omega, by omega, by omega, by omega⟩
    · exact ih (y0 + 1) (by omega) (by push_cast at hyh ⊢; omega) d hd

theorem render_sky_ok (w h : Int) (fr : Frame) (hh : 0 ≤ h) (hfr : FrameOK w h fr) :
    FrameOK w h (render_sky w h fr) := by
  refine ⟨hfr.1, ?_⟩
  intro d hd
  simp only [render_sky, List.mem_append] at hd
  rcases hd with hd | hd
  · exact hfr.2 d hd
  · exact skyLoop_draws_ok w h fr.horizon hfr.1 h.toNat 0 le_rfl (by omega) d hd

/-- Every frame a render call can produce — completed or panicked — has
in-bounds visibility records and only on-screen draw calls. -/
theorem render_frameOK (r : RoadRenderer) (w h road_width xo yo : Int)
    (hw : 0 < w) (hh : 0 < h) :
    FrameOK w h (frameOf (r.render w h road_width xo yo)) := by
  simp only [RoadRenderer.render]
  have hseg := renderSegLoop_ok r w h road_width hw r.segments.length r.cur_segment
    { x_offset := xo, y_offset := yo, z_offset := 0, x_slope := 0, y_slope := 0 }
    r.cur_t (h - 1) (initFrame w) (initFrame_ok w h (by omega)) (by omega)
  split
  · next fr heq =>
    rw [heq] at hseg
    exact hseg
  · next p heq =>
    rw [heq] at hseg
    rw [frameOf_ok]
    exact render_sky_ok w h _ (by omega) hseg

/-- C10: for every render call with `near ≥ 1`, `0 < W ≤ 32767`, `0 < H`,
arbitrary segments, position state and initial offsets, every draw call
the painter receives — road centre, flat shoulder fills, uphill
back-patches into other rows, and the sky pass — has coordinates
`0 ≤ x < W` and `0 ≤ y < H` (this covers the draw calls issued before a
panic as well). -/
theorem render_draws_in_bounds (r : RoadRenderer) (w h road_width xo yo : Int)
    (hw : 0 < w) (hw2 : w ≤ 32767) (hh : 0 < h) (hnear : 1 ≤ r.near) :
    ∀ d ∈ traceOf (r.render w h road_width xo yo),
      0 ≤ d.x ∧ d.x < w ∧ 0 ≤ d.y ∧ d.y < h := by
  have hok := render_frameOK r w h road_width xo yo hw hh
  intro d hd
  have : d ∈ (frameOf (r.render w h road_width xo yo)).draws := by
    cases hr : r.render w h road_width xo yo with
    | error fr => rw [hr] at hd; exact hd
    | ok fr => rw [hr] at hd; exact hd
  exact hok.2 d this

/-- Witness for C10: the first draw of a concrete sky-only render on a
2×1 screen is in bounds. -/
theorem render_draws_in_bounds_witness :
    0 ≤ (Draw.mk 0 0 (Color.sky 0)).x ∧ (Draw.mk 0 0 (Color.sky 0)).x < 2 ∧
    0 ≤ (Draw.mk 0 0 (Color.sky 0)).y ∧ (Draw.mk 0 0 (Color.sky 0)).y < 1 :=
  render_draws_in_bounds (RoadRenderer.new [] 1) 2 1 256 0 0 (by decide) (by decide)
    (by decide) (by decide) (Draw.mk 0 0 (Color.sky 0)) (by decide)

/-- C4 (amended): after every completed render call, every per-row
visibility record satisfies `0 ≤ begin ≤ W` and `0 ≤ end ≤ W`.  (The
original claim's `begin ≤ end` and the exact filled/painted
correspondence are refuted by the counterexample: uphill back-patches
can leave `begin > end` and can paint a pixel twice.) -/
theorem horizon_bounds_after_render (r : RoadRenderer) (w h road_width xo yo : Int)
    (fr : Frame) (hw : 0 < w) (hh : 0 < h)
    (hrun : r.render w h road_width xo yo = Except.ok fr) :
    ∀ y : Int, 0 ≤ (fr.horizon y).begin ∧ (fr.horizon y).begin ≤ w ∧
      0 ≤ (fr.horizon y).«end» ∧ (fr.horizon y).«end» ≤ w := by
  have hok := render_frameOK r w h road_width xo yo hw hh
  rw [hrun, frameOf_ok] at hok
  exact fun y => hok.1 y

/-- Witness for C4 (amended) on a concrete completed render, row 0. -/
theorem horizon_bounds_after_render_witness :
    0 ≤ ((frameOf ((RoadRenderer.new [] 1).render 2 1 256 0 0)).horizon 0).begin ∧
    ((frameOf ((RoadRenderer.new [] 1).render 2 1 256 0 0)).horizon 0).begin ≤ 2 ∧
    0 ≤ ((frameOf ((RoadRenderer.new [] 1).render 2 1 256 0 0)).horizon 0).«end» ∧
    ((frameOf ((RoadRenderer.new [] 1).render 2 1 256 0 0)).horizon 0).«end» ≤ 2 :=
  horizon_bounds_after_render (RoadRenderer.new [] 1) 2 1 256 0 0 _
    (by decide) (by decide) (by rfl) 0

/-- C4 counterexample: two completed 8×6 renders over positive-length
segments.  In `cexRunA` (Uphill/Uphill, `x_curve = -128`) the back-patches
leave row 3 with `begin = 8 > end = 7`, refuting `begin ≤ end`.  In
`cexRunB` (Downhill/Uphill) the rasterizer paints pixel `(0,0)` twice,
refuting the claim that the per-row split matches the painted pixels with
no overlap. -/
theorem horizon_claim_counterexample :
    isOkB cexRunA = true ∧
    ((frameOf cexRunA).horizon 3).begin = 8 ∧
    ((frameOf cexRunA).horizon 3).«end» = 7 ∧
    ¬ ((frameOf cexRunA).horizon 3).begin ≤ ((frameOf cexRunA).horizon 3).«end» ∧
    isOkB cexRunB = true ∧
    rasterCountAt (traceOf cexRunB) 0 0 = 2 := by
  refine ⟨rfl, rfl, rfl, ?_, rfl, rfl⟩
  intro hle
  rw [show ((frameOf cexRunA).horizon 3).begin = 8 from rfl,
    show ((frameOf cexRunA).horizon 3).«end» = 7 from rfl] at hle
  omega

/-- C1 (evaluation at the failing input): the spec's own flat-road
scenario — one Flat/Flat zero-curvature segment, `near = 32`,
`W = 320`, `H = 240`, zero initial offsets — panics: on the first scanned
row the depth solves to `z = 0`, making `tx_step = 0`, and the
`road_left` division divides by zero before any pixel is painted.  The
render aborts with the untouched frame and an empty draw trace, so no
pixel of the frame is ever painted, let alone every pixel exactly once. -/
theorem spec_scenario_panics :
    specScenarioRun = Except.error (initFrame 320) ∧ traceOf specScenarioRun = [] :=
  ⟨rfl, rfl⟩

theorem renderSegLoop_at_end (r : RoadRenderer) (w h road_width : Int) (fuel i : Nat)
    (s : ProjState) (t_start y : Int) (fr : Frame) (hi : r.segments.length ≤ i) :
    renderSegLoop r w h road_width fuel i s t_start y fr =
      Except.ok (y, s, t_start, fr) := by
  cases fuel with
  | zero => rfl
  | succ fuel => simp [renderSegLoop, List.getElem?_eq_none hi]

theorem set_beyond_saturates (segs : List Segment) (near t : Int)
    (hpos : ∀ s ∈ segs, 0 ≤ s.length) (ht : segTotal segs ≤ t) :
    ((RoadRenderer.new segs near).set t).cur_segment = segs.length := by
  simp only [RoadRenderer.set, RoadRenderer.advance]
  have htot : 0 ≤ segTotal segs := by
    have := prefixLen_le_total segs hpos 0
    have h0 : prefixLen segs 0 = 0 := rfl
    have : (0 : Int) ≤ segTotal segs := by
      have h1 := prefixLen_le_total segs hpos 0
      rw [prefixLen_zero] at h1
      exact h1
    exact this
  have hspec := advanceLoop_spec segs segs.length 0 0 (0 + t) (by omega) (by omega)
    rfl (by omega)
  obtain ⟨hs1, hs2, hs3, hs4⟩ := hspec
  by_contra hne
  have hlt : (advanceLoop segs segs.length 0 0 (0 + t)).1 < segs.length :=
    lt_of_le_of_ne hs1 hne
  have hget := List.getElem?_eq_getElem hlt
  have hstop := hs4 _ hget
  have hsucc := prefixLen_succ segs _ _ hget
  have hle := prefixLen_le_total segs hpos ((advanceLoop segs segs.length 0 0 (0 + t)).1 + 1)
  rw [hsucc, ← hs2] at hle
  omega

theorem skyLoop_init_mem (w : Int) :
    ∀ (n : Nat) (y0 : Int) (d : Draw),
      d ∈ skyLoop w (fun _ => { road := false, begin := 0, «end» := w }) n y0 →
      d.c = Color.sky d.y ∧ 0 ≤ d.x ∧ d.x < w ∧ y0 ≤ d.y ∧ d.y < y0 + n := by
  intro n
  induction n with
  | zero => intro y0 d hd; simp [skyLoop] at hd
  | succ n ih =>
    intro y0 d hd
    simp only [skyLoop, List.mem_append] at hd
    rcases hd with hd | hd
    · simp only [skyLine] at hd
      rw [if_neg (by decide)] at hd
      obtain ⟨hc, hdy, hax, hxb⟩ := rangeDraws_mem _ _ _ _ _ hd
      subst hdy
      exact ⟨hc, by omega, by omega, le_rfl, by omega⟩
    · obtain ⟨hc, hx0, hxw, hy1, hy2⟩ := ih (y0 + 1) d hd
      exact ⟨hc, hx0, hxw, by omega, by push_cast at hy2 ⊢; omega⟩

/-- C7: with an empty segment list, or after `set(t)` with `t` at or
beyond the total track length (non-negative segment lengths), a render
completes without panicking, paints only sky — every draw call uses the
row's sky colour — and every draw call's coordinates satisfy
`0 ≤ x < W`, `0 ≤ y < H`. -/
theorem render_past_end_only_sky (segs : List Segment) (near w h road_width xo yo : Int)
    (r : RoadRenderer)
    (hcase : (segs = [] ∧ r = RoadRenderer.new segs near) ∨
      (∃ t : Int, (∀ s ∈ segs, 0 ≤ s.length) ∧ segTotal segs ≤ t ∧
        r = (RoadRenderer.new segs near).set t)) :
    ∃ fr : Frame, r.render w h road_width xo yo = Except.ok fr ∧
      ∀ d ∈ fr.draws, d.c = Color.sky d.y ∧ 0 ≤ d.x ∧ d.x < w ∧ 0 ≤ d.y ∧ d.y < h := by
  have hsegs : r.segments = segs := by
    rcases hcase with ⟨_, rfl⟩ | ⟨t, _, _, rfl⟩ <;> rfl
  have hcs : r.segments.length ≤ r.cur_segment := by
    rcases hcase with ⟨hnil, rfl⟩ | ⟨t, hpos, ht, rfl⟩
    · simp [RoadRenderer.new, hnil]
    · have := set_beyond_saturates segs near t hpos ht
      simp only [RoadRenderer.set, RoadRenderer.advance, RoadRenderer.new] at this ⊢
      omega
  refine ⟨render_sky w h (initFrame w), ?_, ?_⟩
  · simp only [RoadRenderer.render]
    rw [renderSegLoop_at_end r w h road_width r.segments.length r.cur_segment _ _ _ _ hcs]
  · intro d hd
    simp only [render_sky, initFrame, List.nil_append] at hd
    have hmem := skyLoop_init_mem w h.toNat 0 d hd
    obtain ⟨hc, hx0, hxw, hy1, hy2⟩ := hmem
    exact ⟨hc, hx0, hxw, hy1, by omega⟩

/-- Witness for C7: the empty-track scenario on a 2×1 screen. -/
theorem render_past_end_only_sky_witness :
    ∃ fr : Frame, (RoadRenderer.new [] 1).render 2 1 256 0 0 = Except.ok fr ∧
      ∀ d ∈ fr.draws, d.c = Color.sky d.y ∧ 0 ≤ d.x ∧ d.x < 2 ∧ 0 ≤ d.y ∧ d.y < 1 :=
  render_past_end_only_sky [] 1 2 1 256 0 0 (RoadRenderer.new [] 1)
    (Or.inl ⟨rfl, rfl⟩)

end Poisjuoksu
